import Mathlib

/-!
Shallow embedding of the tiled nav-mesh generation driver of
`oxidized_navigation` (`src/lib.rs`): the tile-map install logic
(`build_tile`, `remove_tile`), the dispatch gating
(`can_generate_new_tiles`, `send_tile_rebuild_tasks_system`,
`remove_finished_tasks`), the geometry gathering over collider shape
variants, the grid index arithmetic (`get_neighbour_index`,
`get_tile_side_with_border`), and the exact integer geometry primitives
(`area_sqr`, `left`, `left_on`, `collinear`, `between`, `intersect_prop`,
`intersect`), together with theorems settling the specification claims.
-/

namespace OxidizedNavigation

/-- The integer fields of `NavMeshSettings` used by the driver and the grid
index math.  `tile_width`, `walkable_radius` and the optional
`max_tile_generation_tasks` are `u16` in the source and are modelled as
naturals; the `f32` fields (cell sizes, world bounds, slope, contour
tolerance) do not enter any of the embedded computations. -/
structure NavMeshSettings where
  tile_width : ℕ
  walkable_radius : ℕ
  max_tile_generation_tasks : Option ℕ

/-- `NavMeshSettings::get_tile_side_with_border`:
`usize::from(self.tile_width) + usize::from(self.walkable_radius) * 2`. -/
def NavMeshSettings.get_tile_side_with_border (s : NavMeshSettings) : ℕ :=
  s.tile_width + s.walkable_radius * 2

/-- The shared `NavMeshTiles` store reached through the `RwLock`.  Its two
`HashMap`s keyed by tile coordinate (`UVec2`, modelled as `ℕ × ℕ`) are
modelled as functions into `Option`; the tile record type is the abstract
parameter `τ`, since a record's construction happens in the pipeline
modules and the install logic never inspects it. -/
structure NavMeshTiles (τ : Type) where
  tiles : ℕ × ℕ → Option τ
  tile_generations : ℕ × ℕ → Option ℕ

/-- `nav_mesh.tile_generations.get(&tile_coord).unwrap_or(&0)`: the
generation recorded for a coordinate, `0` when none is recorded. -/
def recordedGeneration {τ : Type} (s : NavMeshTiles τ) (coord : ℕ × ℕ) : ℕ :=
  (s.tile_generations coord).getD 0

/-- Modelled from the spec: `NavMeshTiles::remove_tile` (module `tiles`,
not under `src/`) deletes the map entry for the coordinate. -/
def mapRemoveTile {τ : Type} (s : NavMeshTiles τ) (coord : ℕ × ℕ) : NavMeshTiles τ :=
  { s with tiles := fun c => if c = coord then none else s.tiles c }

/-- Modelled from the spec: `NavMeshTiles::add_tile` (module `tiles`, not
under `src/`) replaces the previous record for the coordinate by the newly
assembled one. -/
def mapAddTile {τ : Type} (s : NavMeshTiles τ) (coord : ℕ × ℕ) (tile : τ) : NavMeshTiles τ :=
  { s with tiles := fun c => if c = coord then some tile else s.tiles c }

/-- `nav_mesh.tile_generations.insert(tile_coord, generation)`. -/
def insertGeneration {τ : Type} (s : NavMeshTiles τ) (coord : ℕ × ℕ) (g : ℕ) :
    NavMeshTiles τ :=
  { s with tile_generations := fun c => if c = coord then some g else s.tile_generations c }

/-- `remove_tile` (lib.rs lines 509-523).  Acquiring the `RwLock` write
guard is modelled by the `poisoned` flag: a poisoned lock takes the `else`
branch of `let Ok(mut nav_mesh) = nav_mesh.write()`, which logs an error
and returns, leaving the store untouched.  Otherwise the removal is
applied only when the recorded generation is strictly below `generation`,
in which case the recorded generation is advanced first. -/
def remove_tile {τ : Type} (poisoned : Bool) (generation : ℕ) (tile_coord : ℕ × ℕ)
    (nav_mesh : NavMeshTiles τ) : NavMeshTiles τ :=
  if poisoned then nav_mesh
  else if recordedGeneration nav_mesh tile_coord < generation then
    mapRemoveTile (insertGeneration nav_mesh tile_coord generation) tile_coord
  else nav_mesh

/-- `build_tile` (lib.rs lines 524-562).  The pipeline stages
(`convert_geometry_collections` through `create_nav_mesh_tile_from_poly_mesh`)
live in modules not under `src/`; the finished tile record they produce is
taken as the parameter `nav_mesh_tile`.  The install logic after
`nav_mesh.write()` (lines 552-561) is embedded literally, with the
poisoned-lock early return as in `remove_tile`. -/
def build_tile {τ : Type} (poisoned : Bool) (generation : ℕ) (tile_coord : ℕ × ℕ)
    (nav_mesh_tile : τ) (nav_mesh : NavMeshTiles τ) : NavMeshTiles τ :=
  if poisoned then nav_mesh
  else if recordedGeneration nav_mesh tile_coord < generation then
    mapAddTile (insertGeneration nav_mesh tile_coord generation) tile_coord nav_mesh_tile
  else nav_mesh

theorem build_tile_applied {τ : Type} (g : ℕ) (coord : ℕ × ℕ) (t : τ)
    (s : NavMeshTiles τ) (h : recordedGeneration s coord < g) :
    (build_tile false g coord t s).tiles coord = some t ∧
      recordedGeneration (build_tile false g coord t s) coord = g := by
  have hb : build_tile false g coord t s
      = mapAddTile (insertGeneration s coord g) coord t := by
    unfold build_tile
    rw [if_neg (by simp), if_pos h]
  rw [hb]
  constructor
  · simp [mapAddTile]
  · simp [mapAddTile, insertGeneration, recordedGeneration]

theorem build_tile_stale {τ : Type} (g : ℕ) (coord : ℕ × ℕ) (t : τ)
    (s : NavMeshTiles τ) (h : g ≤ recordedGeneration s coord) :
    build_tile false g coord t s = s := by
  simp [build_tile, not_lt.mpr h]

theorem remove_tile_applied {τ : Type} (g : ℕ) (coord : ℕ × ℕ)
    (s : NavMeshTiles τ) (h : recordedGeneration s coord < g) :
    (remove_tile false g coord s).tiles coord = none ∧
      recordedGeneration (remove_tile false g coord s) coord = g := by
  have hb : remove_tile false g coord s
      = mapRemoveTile (insertGeneration s coord g) coord := by
    unfold remove_tile
    rw [if_neg (by simp), if_pos h]
  rw [hb]
  constructor
  · simp [mapRemoveTile]
  · simp [mapRemoveTile, insertGeneration, recordedGeneration]

theorem remove_tile_stale {τ : Type} (g : ℕ) (coord : ℕ × ℕ)
    (s : NavMeshTiles τ) (h : g ≤ recordedGeneration s coord) :
    remove_tile false g coord s = s := by
  simp [remove_tile, not_lt.mpr h]

/-- A store with no tile record and recorded generation `1` at the origin
coordinate, as left behind by an applied generation-1 removal. -/
def genOneStore : NavMeshTiles ℕ :=
  ⟨fun _ => none, fun c => if c = (0, 0) then some 1 else none⟩

/-- The empty store: no tiles, no recorded generations. -/
def emptyTiles : NavMeshTiles ℕ :=
  ⟨fun _ => none, fun _ => none⟩

/-- Claim C1, counterexample: with recorded generation `1` at the origin, a
finished tile write stamped `1` (a stamp that is *not older* than, in fact
equal to, the recorded generation) is **not** installed: the store is left
unchanged and no tile record appears, contradicting the claim that a run
whose stamp equals the recorded generation is still applied. -/
theorem C1_counterexample :
    recordedGeneration genOneStore (0, 0) = 1 ∧
      (build_tile false 1 (0, 0) 7 genOneStore).tiles (0, 0) ≠ some 7 ∧
      build_tile false 1 (0, 0) 7 genOneStore = genOneStore := by
  refine ⟨by decide, ?_, ?_⟩
  · have h : build_tile false 1 (0, 0) 7 genOneStore = genOneStore :=
      build_tile_stale 1 (0, 0) 7 genOneStore (by decide)
    rw [h]; decide
  · exact build_tile_stale 1 (0, 0) 7 genOneStore (by decide)

/-- Claim C1 (amended): a finished tile write (or tile-removal) carrying
generation stamp `g` is installed into the global map exactly when `g` is
**strictly greater** than the generation currently recorded for that
coordinate (a coordinate with no recorded generation counts as `0`); upon
installation the recorded generation is advanced to `g`, and a run whose
stamp equals the recorded generation is dropped, leaving the store
unchanged. -/
theorem C1_amended {τ : Type} (g : ℕ) (coord : ℕ × ℕ) (t : τ) (s : NavMeshTiles τ) :
    (recordedGeneration s coord < g →
        (build_tile false g coord t s).tiles coord = some t ∧
        recordedGeneration (build_tile false g coord t s) coord = g ∧
        (remove_tile false g coord s).tiles coord = none ∧
        recordedGeneration (remove_tile false g coord s) coord = g) ∧
    (g ≤ recordedGeneration s coord →
        build_tile false g coord t s = s ∧ remove_tile false g coord s = s) := by
  constructor
  · intro h
    obtain ⟨hb1, hb2⟩ := build_tile_applied g coord t s h
    obtain ⟨hr1, hr2⟩ := remove_tile_applied g coord s h
    exact ⟨hb1, hb2, hr1, hr2⟩
  · intro h
    exact ⟨build_tile_stale g coord t s h, remove_tile_stale g coord s h⟩

/-- Witness for `C1_amended`: on the empty store a write stamped `1`
installs (stamp strictly above the default recorded generation `0`), and on
a store whose recorded generation is already `1` a write or removal stamped
`1` is a no-op. -/
theorem C1_amended_witness :
    (recordedGeneration emptyTiles (0, 0) < 1 ∧
      ((build_tile false 1 (0, 0) (7 : ℕ) emptyTiles).tiles (0, 0) = some 7 ∧
        recordedGeneration (build_tile false 1 (0, 0) (7 : ℕ) emptyTiles) (0, 0) = 1 ∧
        (remove_tile (τ := ℕ) false 1 (0, 0) emptyTiles).tiles (0, 0) = none ∧
        recordedGeneration (remove_tile (τ := ℕ) false 1 (0, 0) emptyTiles) (0, 0) = 1)) ∧
    (1 ≤ recordedGeneration genOneStore (0, 0) ∧
      (build_tile false 1 (0, 0) (7 : ℕ) genOneStore = genOneStore ∧
        remove_tile (τ := ℕ) false 1 (0, 0) genOneStore = genOneStore)) :=
  ⟨⟨by decide, (C1_amended 1 (0, 0) 7 emptyTiles).1 (by decide)⟩,
   ⟨by decide, (C1_amended 1 (0, 0) 7 genOneStore).2 (by decide)⟩⟩

/-- Claim C5: if the shared tile-map `RwLock` is poisoned when a generation
run (`build_tile` or `remove_tile`) attempts to install its result, the run
returns without modifying the tile map or the recorded generations — the
store is returned unchanged — and, being a total function, it neither
panics nor aborts. -/
theorem C5_poisoned_lock_install_fails {τ : Type} (g : ℕ) (coord : ℕ × ℕ) (t : τ)
    (s : NavMeshTiles τ) :
    build_tile true g coord t s = s ∧ remove_tile true g coord s = s := by
  exact ⟨rfl, rfl⟩

/-- One completed generation run targeting a fixed tile coordinate: a
finished tile build carrying the record it assembled, or a tile removal.
Each run carries the ticker stamp issued when it was enqueued. -/
inductive Run (τ : Type) where
  | build (generation : ℕ) (tile : τ)
  | remove (generation : ℕ)
deriving DecidableEq

/-- The generation stamp of a run. -/
def Run.stamp {τ : Type} : Run τ → ℕ
  | .build g _ => g
  | .remove g => g

/-- The tile content a run leaves at its coordinate when its install wins:
a record for a build, absence for a removal. -/
def Run.content {τ : Type} : Run τ → Option τ
  | .build _ t => some t
  | .remove _ => none

/-- Completion of one run: the corresponding install attempt against the
shared store (lock healthy). -/
def applyRun {τ : Type} (coord : ℕ × ℕ) (s : NavMeshTiles τ) (r : Run τ) :
    NavMeshTiles τ :=
  match r with
  | .build g t => build_tile false g coord t s
  | .remove g => remove_tile false g coord s

/-- Completion of a sequence of runs in the given order. -/
def applyRuns {τ : Type} (coord : ℕ × ℕ) (rs : List (Run τ)) (s : NavMeshTiles τ) :
    NavMeshTiles τ :=
  rs.foldl (applyRun coord) s

theorem applyRun_gen_mono {τ : Type} (coord : ℕ × ℕ) (s : NavMeshTiles τ) (r : Run τ) :
    recordedGeneration s coord ≤ recordedGeneration (applyRun coord s r) coord := by
  cases r with
  | build g t =>
    by_cases h : recordedGeneration s coord < g
    · have := (build_tile_applied g coord t s h).2
      simp only [applyRun, this]
      exact le_of_lt h
    · rw [applyRun, build_tile_stale g coord t s (not_lt.mp h)]
  | remove g =>
    by_cases h : recordedGeneration s coord < g
    · have := (remove_tile_applied g coord s h).2
      simp only [applyRun, this]
      exact le_of_lt h
    · rw [applyRun, remove_tile_stale g coord s (not_lt.mp h)]

theorem applyRun_gen_cases {τ : Type} (coord : ℕ × ℕ) (s : NavMeshTiles τ) (r : Run τ) :
    recordedGeneration (applyRun coord s r) coord = recordedGeneration s coord ∨
      recordedGeneration (applyRun coord s r) coord = r.stamp := by
  cases r with
  | build g t =>
    by_cases h : recordedGeneration s coord < g
    · exact Or.inr (build_tile_applied g coord t s h).2
    · rw [applyRun, build_tile_stale g coord t s (not_lt.mp h)]
      exact Or.inl rfl
  | remove g =>
    by_cases h : recordedGeneration s coord < g
    · exact Or.inr (remove_tile_applied g coord s h).2
    · rw [applyRun, remove_tile_stale g coord s (not_lt.mp h)]
      exact Or.inl rfl

theorem applyRuns_gen_mono {τ : Type} (coord : ℕ × ℕ) (rs : List (Run τ))
    (s : NavMeshTiles τ) :
    recordedGeneration s coord ≤ recordedGeneration (applyRuns coord rs s) coord := by
  induction rs generalizing s with
  | nil => exact le_refl _
  | cons r rest ih =>
    calc recordedGeneration s coord
        ≤ recordedGeneration (applyRun coord s r) coord := applyRun_gen_mono coord s r
      _ ≤ recordedGeneration (applyRuns coord rest (applyRun coord s r)) coord := ih _

theorem applyRuns_gen_lt {τ : Type} (coord : ℕ × ℕ) (rs : List (Run τ))
    (s : NavMeshTiles τ) (G : ℕ) (hs : recordedGeneration s coord < G)
    (h : ∀ r ∈ rs, r.stamp < G) :
    recordedGeneration (applyRuns coord rs s) coord < G := by
  induction rs generalizing s with
  | nil => exact hs
  | cons r rest ih =>
    have hstep : recordedGeneration (applyRun coord s r) coord < G := by
      rcases applyRun_gen_cases coord s r with hc | hc
      · rw [hc]; exact hs
      · rw [hc]; exact h r (List.mem_cons_self r rest)
    exact ih _ hstep fun q hq => h q (List.mem_cons_of_mem r hq)

theorem applyRuns_no_op {τ : Type} (coord : ℕ × ℕ) (rs : List (Run τ))
    (s : NavMeshTiles τ) (h : ∀ r ∈ rs, r.stamp ≤ recordedGeneration s coord) :
    applyRuns coord rs s = s := by
  induction rs with
  | nil => rfl
  | cons r rest ih =>
    have hr : applyRun coord s r = s := by
      have hs : r.stamp ≤ recordedGeneration s coord := h r (List.mem_cons_self r rest)
      cases r with
      | build g t => exact build_tile_stale g coord t s hs
      | remove g => exact remove_tile_stale g coord s hs
    show applyRuns coord rest (applyRun coord s r) = s
    rw [hr]
    exact ih fun q hq => h q (List.mem_cons_of_mem r hq)

theorem applyRun_winner {τ : Type} (coord : ℕ × ℕ) (s : NavMeshTiles τ) (r : Run τ)
    (h : recordedGeneration s coord < r.stamp) :
    (applyRun coord s r).tiles coord = r.content ∧
      recordedGeneration (applyRun coord s r) coord = r.stamp := by
  cases r with
  | build g t => exact build_tile_applied g coord t s h
  | remove g => exact remove_tile_applied g coord s h

/-- Claim C2: for a single tile coordinate, along any completion order `rs`
of generation runs with pairwise distinct stamps starting from a store
whose recorded generation predates the freshest stamp, the recorded
generation is non-decreasing after every prefix of completions, and once
every run has completed the tile content and the recorded generation are
those of the run with the highest stamp, regardless of the order in which
the runs completed. -/
theorem C2_generation_monotonic_last_writer_wins {τ : Type} (coord : ℕ × ℕ)
    (rs : List (Run τ)) (s₀ : NavMeshTiles τ) (rbest : Run τ)
    (hmem : rbest ∈ rs)
    (hmax : ∀ r ∈ rs, r.stamp ≤ rbest.stamp)
    (hnodup : (rs.map Run.stamp).Nodup)
    (hinit : recordedGeneration s₀ coord < rbest.stamp) :
    (∀ i j, i ≤ j →
        recordedGeneration (applyRuns coord (rs.take i) s₀) coord ≤
          recordedGeneration (applyRuns coord (rs.take j) s₀) coord) ∧
    (applyRuns coord rs s₀).tiles coord = rbest.content ∧
    recordedGeneration (applyRuns coord rs s₀) coord = rbest.stamp := by
  refine ⟨?_, ?_⟩
  · intro i j hij
    have htt : (rs.take j).take i = rs.take i := by
      rw [List.take_take, min_eq_left hij]
    have : applyRuns coord (rs.take j) s₀
        = applyRuns coord ((rs.take j).drop i) (applyRuns coord (rs.take i) s₀) := by
      conv_lhs => rw [show rs.take j = (rs.take j).take i ++ (rs.take j).drop i from
        (List.take_append_drop i (rs.take j)).symm]
      rw [htt]
      exact List.foldl_append _ _ _ _
    rw [this]
    exact applyRuns_gen_mono coord _ _
  · obtain ⟨l1, l2, hsplit⟩ := List.append_of_mem hmem
    subst hsplit
    have hmap : (l1.map Run.stamp ++ rbest.stamp :: l2.map Run.stamp).Nodup := by
      simpa using hnodup
    have hnotl1 : rbest.stamp ∉ l1.map Run.stamp := by
      intro hcontra
      rcases List.nodup_append.mp hmap with ⟨_, _, hdisj⟩
      exact hdisj hcontra (List.mem_cons_self _ _)
    have hnotl2 : rbest.stamp ∉ l2.map Run.stamp := by
      rcases List.nodup_append.mp hmap with ⟨_, hcons, _⟩
      exact (List.nodup_cons.mp hcons).1
    have hl1lt : ∀ r ∈ l1, r.stamp < rbest.stamp := by
      intro r hr
      have hle : r.stamp ≤ rbest.stamp := hmax r (by simp [hr])
      rcases lt_or_eq_of_le hle with hlt | heq
      · exact hlt
      · exact absurd (heq ▸ List.mem_map_of_mem Run.stamp hr) hnotl1
    have hl2le : ∀ r ∈ l2, r.stamp ≤ rbest.stamp := by
      intro r hr
      exact hmax r (by simp [hr])
    have hsplit1 : applyRuns coord (l1 ++ rbest :: l2) s₀
        = applyRuns coord l2 (applyRun coord (applyRuns coord l1 s₀) rbest) := by
      unfold applyRuns
      rw [List.foldl_append]
      rfl
    have hgenl1 : recordedGeneration (applyRuns coord l1 s₀) coord < rbest.stamp :=
      applyRuns_gen_lt coord l1 s₀ rbest.stamp hinit hl1lt
    obtain ⟨hcontent, hgen⟩ := applyRun_winner coord (applyRuns coord l1 s₀) rbest hgenl1
    have hnoop : applyRuns coord l2 (applyRun coord (applyRuns coord l1 s₀) rbest)
        = applyRun coord (applyRuns coord l1 s₀) rbest := by
      apply applyRuns_no_op
      intro r hr
      rw [hgen]
      exact hl2le r hr
    rw [hsplit1, hnoop]
    exact ⟨hcontent, hgen⟩

/-- A concrete out-of-order completion history: stamps `2`, `1`, `3`. -/
def witnessRuns : List (Run ℕ) := [.build 2 20, .remove 1, .build 3 30]

/-- Witness for `C2_generation_monotonic_last_writer_wins` on the history
`[build@2, remove@1, build@3]` over the empty store: the freshest run
(stamp `3`) determines the final tile content and recorded generation. -/
theorem C2_witness :
    ((Run.build 3 30 : Run ℕ) ∈ witnessRuns ∧
      (∀ r ∈ witnessRuns, r.stamp ≤ (Run.build 3 30 : Run ℕ).stamp) ∧
      (witnessRuns.map Run.stamp).Nodup ∧
      recordedGeneration emptyTiles (0, 0) < (Run.build 3 30 : Run ℕ).stamp) ∧
    ((∀ i j, i ≤ j →
        recordedGeneration (applyRuns (0, 0) (witnessRuns.take i) emptyTiles) (0, 0) ≤
          recordedGeneration (applyRuns (0, 0) (witnessRuns.take j) emptyTiles) (0, 0)) ∧
      (applyRuns (0, 0) witnessRuns emptyTiles).tiles (0, 0) =
        (Run.build 3 30 : Run ℕ).content ∧
      recordedGeneration (applyRuns (0, 0) witnessRuns emptyTiles) (0, 0) =
        (Run.build 3 30 : Run ℕ).stamp) :=
  ⟨⟨by decide, by decide, by decide, by decide⟩,
    C2_generation_monotonic_last_writer_wins (0, 0) witnessRuns emptyTiles
      (Run.build 3 30) (by decide) (by decide) (by decide) (by decide)⟩

/-- A store holding a tile record with value `5` at the origin and no
recorded generation yet. -/
def tileStore : NavMeshTiles ℕ :=
  ⟨fun c => if c = (0, 0) then some 5 else none, fun _ => none⟩

/-- Claim C4: after a `remove_tile` run stamped `g` has removed a tile
coordinate (its stamp beat the recorded generation), any subsequent
`remove_tile` run for the same coordinate stamped `g2 ≤ g` leaves the map
still without that coordinate, keeps the recorded generation at `g` (it
never decreases), and never resurrects a tile record there — the second
removal is a no-op. -/
theorem C4_removal_idempotent {τ : Type} (g g2 : ℕ) (coord : ℕ × ℕ)
    (s : NavMeshTiles τ) (happlied : recordedGeneration s coord < g) (hle : g2 ≤ g) :
    (remove_tile false g2 coord (remove_tile false g coord s)).tiles coord = none ∧
    recordedGeneration (remove_tile false g2 coord (remove_tile false g coord s)) coord
      = g ∧
    remove_tile false g2 coord (remove_tile false g coord s)
      = remove_tile false g coord s := by
  obtain ⟨htile, hgen⟩ := remove_tile_applied g coord s happlied
  have hstale : remove_tile false g2 coord (remove_tile false g coord s)
      = remove_tile false g coord s := by
    apply remove_tile_stale
    rw [hgen]
    exact hle
  rw [hstale]
  exact ⟨htile, hgen, rfl⟩

/-- Witness for `C4_removal_idempotent`: a removal stamped `2` deletes the
origin tile of `tileStore`; a second removal with the equal stamp `2`
changes nothing. -/
theorem C4_removal_idempotent_witness :
    (recordedGeneration tileStore (0, 0) < 2 ∧ 2 ≤ 2) ∧
    ((remove_tile (τ := ℕ) false 2 (0, 0) (remove_tile false 2 (0, 0) tileStore)).tiles
        (0, 0) = none ∧
      recordedGeneration
        (remove_tile (τ := ℕ) false 2 (0, 0) (remove_tile false 2 (0, 0) tileStore)) (0, 0)
        = 2 ∧
      remove_tile (τ := ℕ) false 2 (0, 0) (remove_tile false 2 (0, 0) tileStore)
        = remove_tile false 2 (0, 0) tileStore) :=
  ⟨⟨by decide, by decide⟩,
    C4_removal_idempotent 2 2 (0, 0) tileStore (by decide) (by decide)⟩

/-- The analytic primitive shapes carried by `GeometryToConvert::Collider`
(`ColliderType` in module `conversion`); shape parameters are not inspected
by the driver and are omitted. -/
inductive ColliderType where
  | ball
  | cuboid
  | capsule
  | cylinder
  | cone
  | triangle
deriving DecidableEq

/-- `GeometryToConvert` (module `conversion`): either an analytic collider
or a raw triangle mesh (vertex/index payloads omitted, the driver only
routes them). -/
inductive GeometryToConvert where
  | collider (ty : ColliderType)
  | rapierTriMesh
deriving DecidableEq

/-- The `ColliderView` shape variants matched by
`send_tile_rebuild_tasks_system` (lib.rs lines 421-476); payloads omitted,
only the dispatch per variant is embedded. -/
inductive ColliderView where
  | ball
  | cuboid
  | capsule
  | triMesh
  | heightField
  | convexPolyhedron
  | cylinder
  | cone
  | roundCuboid
  | roundCylinder
  | roundCone
  | roundConvexPolyhedron
  | triangle
  | roundTriangle
  | compound
  | halfSpace
  | polyline
  | segment
deriving DecidableEq

/-- One affecting entity as seen by the gathering query: its collider shape
and its optional `NavMeshAreaType` component, whose payload is
`Option<u16>` (`None` meaning not walkable). -/
structure AffectorEntity where
  shape : ColliderView
  area_type : Option (Option ℕ)
deriving DecidableEq

/-- `nav_mesh_affector.map_or(Some(0), |area_type| area_type.0)`
(lib.rs line 419): the area recorded for an entity's gathered geometry,
from the optional `NavMeshAreaType` component. -/
def affectorArea (nav_mesh_affector : Option (Option ℕ)) : Option ℕ :=
  nav_mesh_affector.elim (some 0) (fun area_type => area_type)

/-- An entry of `geometry_collections` (transform omitted). -/
structure GeometryCollection where
  geometry_to_convert : GeometryToConvert
  area : Option ℕ
deriving DecidableEq

/-- An entry of `heightfield_collections` (transform and height data
omitted). -/
structure HeightFieldCollection where
  area : Option ℕ
deriving DecidableEq

/-- One iteration of the gathering loop of `send_tile_rebuild_tasks_system`
(lib.rs lines 418-483): supported shapes append a `GeometryCollection`,
height fields append a `HeightFieldCollection`, and the unsupported
variants (`Compound`, `HalfSpace`, `Polyline`, `Segment`) `continue`
without touching either collection. -/
def gatherStep (acc : List GeometryCollection × List HeightFieldCollection)
    (e : AffectorEntity) : List GeometryCollection × List HeightFieldCollection :=
  let area := affectorArea e.area_type
  match e.shape with
  | .ball => (acc.1 ++ [⟨.collider .ball, area⟩], acc.2)
  | .cuboid => (acc.1 ++ [⟨.collider .cuboid, area⟩], acc.2)
  | .capsule => (acc.1 ++ [⟨.collider .capsule, area⟩], acc.2)
  | .triMesh => (acc.1 ++ [⟨.rapierTriMesh, area⟩], acc.2)
  | .heightField => (acc.1, acc.2 ++ [⟨area⟩])
  | .convexPolyhedron => (acc.1 ++ [⟨.rapierTriMesh, area⟩], acc.2)
  | .cylinder => (acc.1 ++ [⟨.collider .cylinder, area⟩], acc.2)
  | .cone => (acc.1 ++ [⟨.collider .cone, area⟩], acc.2)
  | .roundCuboid => (acc.1 ++ [⟨.collider .cuboid, area⟩], acc.2)
  | .roundCylinder => (acc.1 ++ [⟨.collider .cylinder, area⟩], acc.2)
  | .roundCone => (acc.1 ++ [⟨.collider .cone, area⟩], acc.2)
  | .roundConvexPolyhedron => (acc.1 ++ [⟨.rapierTriMesh, area⟩], acc.2)
  | .triangle => (acc.1 ++ [⟨.collider .triangle, area⟩], acc.2)
  | .roundTriangle => (acc.1 ++ [⟨.collider .triangle, area⟩], acc.2)
  | .compound => acc
  | .halfSpace => acc
  | .polyline => acc
  | .segment => acc

/-- The whole gathering loop over a tile's affector entities. -/
def gatherCollections (affectors : List AffectorEntity) :
    List GeometryCollection × List HeightFieldCollection :=
  affectors.foldl gatherStep ([], [])

/-- The shape variants the gathering loop skips (`Compound`, `HalfSpace`,
`Polyline`, `Segment`). -/
def unsupportedShape : ColliderView → Bool
  | .compound => true
  | .halfSpace => true
  | .polyline => true
  | .segment => true
  | _ => false

/-- The task spawned for one dirty tile by
`send_tile_rebuild_tasks_system`: a detached `remove_tile` when the tile
has no (or an empty) affector set, otherwise a `build_tile` over the
gathered geometry. -/
inductive SpawnedTask where
  | removeTask (generation : ℕ)
  | buildTask (generation : ℕ) (geometry : List GeometryCollection)
      (heightfields : List HeightFieldCollection)
deriving DecidableEq

/-- The per-tile dispatch of `send_tile_rebuild_tasks_system` (lib.rs lines
395-499): `tile_affectors.get(&tile_coord)` is the `affectors` argument. -/
def dispatchTile (generation : ℕ) (affectors : Option (List AffectorEntity)) :
    SpawnedTask :=
  match affectors with
  | none => .removeTask generation
  | some es =>
    if es.isEmpty then .removeTask generation
    else .buildTask generation (gatherCollections es).1 (gatherCollections es).2

theorem gatherStep_unsupported (acc : List GeometryCollection × List HeightFieldCollection)
    (e : AffectorEntity) (h : unsupportedShape e.shape = true) :
    gatherStep acc e = acc := by
  obtain ⟨sh, ar⟩ := e
  cases sh <;> simp_all [unsupportedShape, gatherStep]

/-- Claim C7: an affector whose collider is an unsupported variant
(compound, half-space, polyline or segment) is skipped as a single item:
the gathered collections are exactly those of the remaining affectors, and
the tile still dispatches a build task over that remaining geometry — no
error or abort is produced for the tile. -/
theorem C7_unsupported_shape_skipped (g : ℕ) (xs ys : List AffectorEntity)
    (e : AffectorEntity) (h : unsupportedShape e.shape = true) :
    gatherCollections (xs ++ e :: ys) = gatherCollections (xs ++ ys) ∧
    dispatchTile g (some (xs ++ e :: ys)) =
      .buildTask g (gatherCollections (xs ++ ys)).1 (gatherCollections (xs ++ ys)).2 := by
  have hgather : gatherCollections (xs ++ e :: ys) = gatherCollections (xs ++ ys) := by
    unfold gatherCollections
    rw [List.foldl_append, List.foldl_append, List.foldl_cons,
      gatherStep_unsupported _ e h]
  refine ⟨hgather, ?_⟩
  have hne : (xs ++ e :: ys).isEmpty = false := by
    cases xs <;> simp [List.isEmpty]
  simp only [dispatchTile, hne, Bool.false_eq_true, if_false, hgather]

/-- Witness for `C7_unsupported_shape_skipped`: a polyline affector between
a ball and a cuboid affector is dropped while the others' geometry is
gathered and a build task is still spawned. -/
theorem C7_witness :
    unsupportedShape (AffectorEntity.mk ColliderView.polyline none).shape = true ∧
    (gatherCollections
        ([⟨ColliderView.ball, some (some 1)⟩] ++
          (AffectorEntity.mk ColliderView.polyline none) :: [⟨ColliderView.cuboid, none⟩]) =
      gatherCollections
        ([⟨ColliderView.ball, some (some 1)⟩] ++ [⟨ColliderView.cuboid, none⟩]) ∧
    dispatchTile 1
        (some ([⟨ColliderView.ball, some (some 1)⟩] ++
          (AffectorEntity.mk ColliderView.polyline none) :: [⟨ColliderView.cuboid, none⟩])) =
      SpawnedTask.buildTask 1
        (gatherCollections
          ([⟨ColliderView.ball, some (some 1)⟩] ++ [⟨ColliderView.cuboid, none⟩])).1
        (gatherCollections
          ([⟨ColliderView.ball, some (some 1)⟩] ++ [⟨ColliderView.cuboid, none⟩])).2) :=
  ⟨by decide,
    C7_unsupported_shape_skipped 1 [⟨ColliderView.ball, some (some 1)⟩]
      [⟨ColliderView.cuboid, none⟩] (AffectorEntity.mk ColliderView.polyline none)
      (by decide)⟩

/-- Claim C3, counterexample: an affecting entity with **no**
`NavMeshAreaType` component attached (the query yields `None` for it) has
its geometry gathered with area `Some(0)` — walkable with area type `0` —
not with `None` (not walkable) as the claim states. -/
theorem C3_counterexample :
    (gatherCollections [⟨ColliderView.ball, none⟩]).1.map GeometryCollection.area
      = [some 0] ∧
    some 0 ≠ (none : Option ℕ) := by
  exact ⟨by decide, by decide⟩

/-- Claim C3 (amended): the area recorded for gathered geometry is `Some(0)`
(walkable, area type `0`) when the entity has no `NavMeshAreaType`
component; an attached `NavMeshAreaType(None)` — and only that — makes the
gathered geometry not walkable, and an attached `NavMeshAreaType(Some(a))`
records area `a`. -/
theorem C3_amended :
    affectorArea none = some 0 ∧
    affectorArea (some none) = none ∧
    (∀ a : ℕ, affectorArea (some (some a)) = some a) ∧
    (∀ aty : Option (Option ℕ),
      (gatherCollections [⟨ColliderView.ball, aty⟩]).1.map GeometryCollection.area
        = [affectorArea aty]) := by
  refine ⟨rfl, rfl, fun a => rfl, fun aty => rfl⟩

/-- `u16::MAX`. -/
def u16MAX : ℕ := 65535

/-- `can_generate_new_tiles` (lib.rs lines 362-369): the run condition of
`send_tile_rebuild_tasks_system`, true when the active task count is below
the optional cap and some tile is dirty. -/
def can_generate_new_tiles (nav_mesh_settings : NavMeshSettings)
    (active_generation_tasks_len : ℕ) (dirty_tiles_is_empty : Bool) : Bool :=
  nav_mesh_settings.max_tile_generation_tasks.elim true
      (fun m => decide (active_generation_tasks_len < m)) &&
    !dirty_tiles_is_empty

/-- Whether a dirty tile's dispatch pushes a build task onto
`ActiveGenerationTasks` (removal tasks are detached, not pushed). -/
def pushesBuildTask (affectors : Option (List AffectorEntity)) : Bool :=
  match affectors with
  | none => false
  | some es => !es.isEmpty

/-- The length of `ActiveGenerationTasks` after one round of
`send_tile_rebuild_tasks_system` (lib.rs lines 385-499): the round takes at
most `max_tile_generation_tasks.unwrap_or(u16::MAX) - active_len` dirty
tiles and pushes a task only for the taken tiles with a non-empty affector
set.  `dirty` lists, per dirty tile, the `tile_affectors` lookup for it. -/
def send_tile_rebuild_tasks (nav_mesh_settings : NavMeshSettings)
    (active_generation_tasks_len : ℕ)
    (dirty : List (Option (List AffectorEntity))) : ℕ :=
  let max_task_count :=
    (nav_mesh_settings.max_tile_generation_tasks.getD u16MAX) -
      active_generation_tasks_len
  let tiles_to_generate := dirty.take max_task_count
  active_generation_tasks_len + (tiles_to_generate.filter pushesBuildTask).length

/-- `remove_finished_tasks` (lib.rs lines 503-507):
`active_generation_tasks.0.retain(|task| !task.is_finished())`, with a task
modelled by its finished flag. -/
def remove_finished_tasks (tasks : List Bool) : List Bool :=
  tasks.filter (fun finished => !finished)

/-- Claim C6: with `max_tile_generation_tasks = Some(n)`, the in-flight
task count never exceeds `n`: the gate `can_generate_new_tiles` requires
the current count to be below `n`, a dispatch round starts at most
`n - count` new build tasks, so the count stays at most `n` after the
round, and `remove_finished_tasks` only ever shrinks the task list. -/
theorem C6_generation_task_cap (nav_mesh_settings : NavMeshSettings) (n : ℕ)
    (active_generation_tasks_len : ℕ) (dirty : List (Option (List AffectorEntity)))
    (dirty_tiles_is_empty : Bool)
    (hmax : nav_mesh_settings.max_tile_generation_tasks = some n)
    (hgate : can_generate_new_tiles nav_mesh_settings active_generation_tasks_len
        dirty_tiles_is_empty = true) :
    active_generation_tasks_len < n ∧
    send_tile_rebuild_tasks nav_mesh_settings active_generation_tasks_len dirty -
        active_generation_tasks_len ≤ n - active_generation_tasks_len ∧
    send_tile_rebuild_tasks nav_mesh_settings active_generation_tasks_len dirty ≤ n ∧
    (∀ tasks : List Bool, (remove_finished_tasks tasks).length ≤ tasks.length) := by
  have hlt : active_generation_tasks_len < n := by
    rw [can_generate_new_tiles, hmax] at hgate
    simp only [Option.elim, Bool.and_eq_true, decide_eq_true_eq] at hgate
    exact hgate.1
  have hcount : ((dirty.take (n - active_generation_tasks_len)).filter
      pushesBuildTask).length ≤ n - active_generation_tasks_len := by
    calc ((dirty.take (n - active_generation_tasks_len)).filter pushesBuildTask).length
        ≤ (dirty.take (n - active_generation_tasks_len)).length :=
          List.length_filter_le _ _
      _ ≤ n - active_generation_tasks_len := by
          simp [List.length_take_le]
  have hsend : send_tile_rebuild_tasks nav_mesh_settings active_generation_tasks_len dirty
      = active_generation_tasks_len +
        ((dirty.take (n - active_generation_tasks_len)).filter pushesBuildTask).length := by
    rw [send_tile_rebuild_tasks, hmax]
    rfl
  refine ⟨hlt, ?_, ?_, ?_⟩
  · rw [hsend]
    omega
  · rw [hsend]
    omega
  · intro tasks
    exact List.length_filter_le _ _

/-- Concrete dirty-tile lookups for the `C6` witness: one tile with an
affector, one with an empty affector set, one with no entry. -/
def witnessDirty : List (Option (List AffectorEntity)) :=
  [some [⟨ColliderView.ball, none⟩], some [], none,
    some [⟨ColliderView.cuboid, some (some 2)⟩]]

/-- Concrete settings for the `C6` witness: a cap of two concurrent tasks. -/
def witnessSettings : NavMeshSettings := ⟨4, 1, some 2⟩

/-- Witness for `C6_generation_task_cap` with cap `2`, one active task and
four dirty tiles: at most one new build task starts and the count stays at
most `2`. -/
theorem C6_generation_task_cap_witness :
    (witnessSettings.max_tile_generation_tasks = some 2 ∧
      can_generate_new_tiles witnessSettings 1 false = true) ∧
    (1 < 2 ∧
      send_tile_rebuild_tasks witnessSettings 1 witnessDirty - 1 ≤ 2 - 1 ∧
      send_tile_rebuild_tasks witnessSettings 1 witnessDirty ≤ 2 ∧
      (∀ tasks : List Bool, (remove_finished_tasks tasks).length ≤ tasks.length)) :=
  ⟨⟨by decide, by decide⟩,
    C6_generation_task_cap witnessSettings 2 1 witnessDirty false (by decide) (by decide)⟩

/-- `get_neighbour_index` (lib.rs lines 569-577).  `index` and `dir` are
`usize`; `none` models a panic: the debug-mode underflow panic of the
`usize` subtractions `index - 1` (dir `0`) and
`index - get_tile_side_with_border()` (dir `3`), and the explicit
`panic!("Not a valid direction")` for `dir > 3`. -/
def get_neighbour_index (nav_mesh_settings : NavMeshSettings) (index : ℕ) (dir : ℕ) :
    Option ℕ :=
  match dir with
  | 0 => if 1 ≤ index then some (index - 1) else none
  | 1 => some (index + nav_mesh_settings.get_tile_side_with_border)
  | 2 => some (index + 1)
  | 3 =>
    if nav_mesh_settings.get_tile_side_with_border ≤ index then
      some (index - nav_mesh_settings.get_tile_side_with_border)
    else none
  | _ => none

/-- Claim C9: `get_neighbour_index` is panic-free exactly when
`dir ∈ {0,1,2,3}`, with `index ≥ 1` when `dir = 0` and
`index ≥ get_tile_side_with_border()` when `dir = 3`; under that
precondition it shifts the index by one cell in the corresponding cardinal
direction, the row stride being `tile_width + 2 * walkable_radius`. -/
theorem C9_get_neighbour_index (nav_mesh_settings : NavMeshSettings) (index dir : ℕ) :
    ((get_neighbour_index nav_mesh_settings index dir).isSome = true ↔
      (dir = 1 ∨ dir = 2 ∨ (dir = 0 ∧ 1 ≤ index) ∨
        (dir = 3 ∧ nav_mesh_settings.get_tile_side_with_border ≤ index))) ∧
    (1 ≤ index →
      get_neighbour_index nav_mesh_settings index 0 = some (index - 1)) ∧
    get_neighbour_index nav_mesh_settings index 1 =
      some (index + (nav_mesh_settings.tile_width + 2 * nav_mesh_settings.walkable_radius)) ∧
    get_neighbour_index nav_mesh_settings index 2 = some (index + 1) ∧
    (nav_mesh_settings.get_tile_side_with_border ≤ index →
      get_neighbour_index nav_mesh_settings index 3 =
        some (index -
          (nav_mesh_settings.tile_width + 2 * nav_mesh_settings.walkable_radius))) := by
  have hside : nav_mesh_settings.get_tile_side_with_border
      = nav_mesh_settings.tile_width + 2 * nav_mesh_settings.walkable_radius := by
    rw [NavMeshSettings.get_tile_side_with_border]
    ring
  refine ⟨?_, ?_, ?_, ?_, ?_⟩
  · match dir with
    | 0 =>
      by_cases h : 1 ≤ index <;> simp [get_neighbour_index, h]
    | 1 => simp [get_neighbour_index]
    | 2 => simp [get_neighbour_index]
    | 3 =>
      by_cases h : nav_mesh_settings.get_tile_side_with_border ≤ index <;>
        simp [get_neighbour_index, h]
    | (d + 4) => simp [get_neighbour_index]
  · intro h
    simp [get_neighbour_index, h]
  · rw [get_neighbour_index, hside]
  · rfl
  · intro h
    rw [get_neighbour_index, if_pos h, hside]

/-- Witness for `C9_get_neighbour_index` at `tile_width = 4`,
`walkable_radius = 1` (stride `6`) and `index = 7`: dir `0` gives `6`, dir
`1` gives `13`, dir `2` gives `8`, dir `3` gives `1`, and dir `5` panics. -/
theorem C9_witness :
    ((get_neighbour_index witnessSettings 7 5).isSome = true ↔
      ((5 : ℕ) = 1 ∨ (5 : ℕ) = 2 ∨ ((5 : ℕ) = 0 ∧ 1 ≤ 7) ∨
        ((5 : ℕ) = 3 ∧ witnessSettings.get_tile_side_with_border ≤ 7))) ∧
    ((1 : ℕ) ≤ 7 ∧ get_neighbour_index witnessSettings 7 0 = some 6) ∧
    get_neighbour_index witnessSettings 7 1 = some 13 ∧
    get_neighbour_index witnessSettings 7 2 = some 8 ∧
    (witnessSettings.get_tile_side_with_border ≤ 7 ∧
      get_neighbour_index witnessSettings 7 3 = some 1) :=
  ⟨(C9_get_neighbour_index witnessSettings 7 5).1,
    ⟨by decide, (C9_get_neighbour_index witnessSettings 7 5).2.1 (by decide)⟩,
    (C9_get_neighbour_index witnessSettings 7 5).2.2.1,
    (C9_get_neighbour_index witnessSettings 7 5).2.2.2.1,
    ⟨by decide, (C9_get_neighbour_index witnessSettings 7 5).2.2.2.2 (by decide)⟩⟩

/-- glam `IVec4` as used by the contour/mesher vertices: only the `x` and
`z` lanes enter the geometry primitives.  The `i32` lanes are modelled as
integers (debug Rust panics on overflow rather than wrapping; grid
coordinates stay far below the overflow range). -/
structure IVec4 where
  x : ℤ
  y : ℤ
  z : ℤ
  w : ℤ
deriving DecidableEq

/-- `area_sqr` (lib.rs lines 607-609): twice the signed area of the
triangle `a b c` on the XZ-plane. -/
def area_sqr (a b c : IVec4) : ℤ :=
  (b.x - a.x) * (c.z - a.z) - (c.x - a.x) * (b.z - a.z)

/-- `collinear` (lib.rs lines 611-613). -/
def collinear (a b c : IVec4) : Bool :=
  decide (area_sqr a b c = 0)

/-- `left` (lib.rs lines 615-617). -/
def left (a b c : IVec4) : Bool :=
  decide (area_sqr a b c < 0)

/-- `left_on` (lib.rs lines 618-620). -/
def left_on (a b c : IVec4) : Bool :=
  decide (area_sqr a b c ≤ 0)

/-- `intersect_prop` (lib.rs lines 579-585): proper crossing — the
segments cross at a point interior to both, no endpoint collinear with the
other segment. -/
def intersect_prop (a b c d : IVec4) : Bool :=
  if collinear a b c || collinear a b d || collinear c d a || collinear c d b then false
  else (left a b c ^^ left a b d) && (left c d a ^^ left c d b)

/-- `between` (lib.rs lines 587-597): `c` lies on the closed segment `ab`,
tested by collinearity plus a coordinate interval check. -/
def between (a b c : IVec4) : Bool :=
  if !collinear a b c then false
  else if a.x ≠ b.x then
    (decide (a.x ≤ c.x) && decide (c.x ≤ b.x)) ||
      (decide (a.x ≥ c.x) && decide (c.x ≥ b.x))
  else
    (decide (a.z ≤ c.z) && decide (c.z ≤ b.z)) ||
      (decide (a.z ≥ c.z) && decide (c.z ≥ b.z))

/-- `intersect` (lib.rs lines 599-605): closed-segment intersection —
proper crossing or an endpoint of one segment lying on the other. -/
def intersect (a b c d : IVec4) : Bool :=
  intersect_prop a b c d || between a b c || between a b d ||
    between c d a || between c d b

/-- The point of the rational XZ-plane at parameter `t` along the segment
from `a` to `b`. -/
def segPoint (a b : IVec4) (t : ℚ) : ℚ × ℚ :=
  ((1 - t) * (a.x : ℚ) + t * (b.x : ℚ), (1 - t) * (a.z : ℚ) + t * (b.z : ℚ))

/-- `p` lies on the closed segment from `a` to `b` on the XZ-plane. -/
def OnSegment (a b : IVec4) (p : ℚ × ℚ) : Prop :=
  ∃ t : ℚ, 0 ≤ t ∧ t ≤ 1 ∧ p = segPoint a b t

/-- The closed segments `ab` and `cd` share at least one point of the
rational XZ-plane: the specification-side meaning of segment
intersection. -/
def SegmentsIntersect (a b c d : IVec4) : Prop :=
  ∃ p : ℚ × ℚ, OnSegment a b p ∧ OnSegment c d p

/-- `a` and `b` coincide on the XZ-plane (the segment `ab` is a point). -/
def XZEq (a b : IVec4) : Prop := a.x = b.x ∧ a.z = b.z

instance (a b : IVec4) : Decidable (XZEq a b) :=
  inferInstanceAs (Decidable (a.x = b.x ∧ a.z = b.z))

/-- A degenerate first segment for the `C8` counterexample. -/
def degA : IVec4 := ⟨0, 0, 0, 0⟩

/-- Left endpoint of the second segment of the `C8` counterexample. -/
def degC : IVec4 := ⟨5, 0, 0, 0⟩

/-- Right endpoint of the second segment of the `C8` counterexample. -/
def degD : IVec4 := ⟨6, 0, 0, 0⟩

/-- Claim C8, counterexample: for the degenerate segment from `(0,0)` to
`(0,0)` and the segment from `(5,0)` to `(6,0)`, `intersect` returns
`true` although the closed segments share no point, refuting the claimed
unrestricted iff. -/
theorem C8_counterexample :
    intersect degA degA degC degD = true ∧ ¬ SegmentsIntersect degA degA degC degD := by
  constructor
  · decide
  · rintro ⟨p, ⟨t, ht0, ht1, hp⟩, ⟨s, hs0, hs1, hq⟩⟩
    have h1 : p.1 = 0 := by
      rw [hp]
      show (1 - t) * ((0 : ℤ) : ℚ) + t * ((0 : ℤ) : ℚ) = 0
      push_cast
      ring
    have h2 : p.1 = (1 - s) * 5 + s * 6 := by
      rw [hq]
      show ((1 - s) * ((5 : ℤ) : ℚ) + s * ((6 : ℤ) : ℚ) : ℚ) = _
      push_cast
      ring
    rw [h1] at h2
    nlinarith

/-- The `x` lane of a vertex as a rational. -/
def qx (a : IVec4) : ℚ := (a.x : ℚ)

/-- The `z` lane of a vertex as a rational. -/
def qz (a : IVec4) : ℚ := (a.z : ℚ)

/-- The cross product underlying `area_sqr`, over the rationals. -/
def crossQ (ax az bx bz cx cz : ℚ) : ℚ :=
  (bx - ax) * (cz - az) - (cx - ax) * (bz - az)

/-- `area_sqr` over rational casts of the three vertices. -/
def crossI (e f p : IVec4) : ℚ :=
  crossQ (qx e) (qz e) (qx f) (qz f) (qx p) (qz p)

theorem crossI_eq_area (e f p : IVec4) :
    crossI e f p = ((area_sqr e f p : ℤ) : ℚ) := by
  rw [crossI, crossQ, area_sqr, qx, qz, qx, qz, qx, qz]
  push_cast
  ring

theorem crossQ_self_left (ax az bx bz : ℚ) : crossQ ax az bx bz ax az = 0 := by
  rw [crossQ]; ring

theorem crossQ_self_right (ax az bx bz : ℚ) : crossQ ax az bx bz bx bz = 0 := by
  rw [crossQ]; ring

theorem crossQ_affine (ax az bx bz cx cz dx dz t : ℚ) :
    crossQ ax az bx bz ((1 - t) * cx + t * dx) ((1 - t) * cz + t * dz)
      = (1 - t) * crossQ ax az bx bz cx cz + t * crossQ ax az bx bz dx dz := by
  rw [crossQ, crossQ, crossQ]; ring

theorem crossI_segPoint (e f a b : IVec4) (t : ℚ) :
    crossQ (qx e) (qz e) (qx f) (qz f) (segPoint a b t).1 (segPoint a b t).2
      = (1 - t) * crossI e f a + t * crossI e f b := by
  rw [segPoint, crossI, crossI]
  exact crossQ_affine _ _ _ _ _ _ _ _ t

theorem crossI_segPoint_self (a b : IVec4) (t : ℚ) :
    crossQ (qx a) (qz a) (qx b) (qz b) (segPoint a b t).1 (segPoint a b t).2 = 0 := by
  rw [crossI_segPoint, crossI, crossI, crossQ_self_left, crossQ_self_right]
  ring

/-- Distinctness of two vertices on the XZ-plane, over the rationals. -/
theorem XZ_ne {a b : IVec4} (hab : ¬ XZEq a b) : qx a ≠ qx b ∨ qz a ≠ qz b := by
  rw [XZEq, not_and_or] at hab
  rcases hab with h | h
  · exact Or.inl (by rw [qx, qx]; exact_mod_cast h)
  · exact Or.inr (by rw [qz, qz]; exact_mod_cast h)

/-- A point on the line through two distinct points is an affine
combination of them. -/
theorem param_of_crossQ_zero (cx cz dx dz px pz : ℚ)
    (h : crossQ cx cz dx dz px pz = 0) (hne : cx ≠ dx ∨ cz ≠ dz) :
    ∃ s : ℚ, px = (1 - s) * cx + s * dx ∧ pz = (1 - s) * cz + s * dz := by
  rw [crossQ] at h
  by_cases hx : cx = dx
  · have hz : cz ≠ dz := by
      rcases hne with h' | h'
      · exact absurd hx h'
      · exact h'
    have hpx : px = cx := by
      have h' : (px - cx) * (dz - cz) = 0 := by rw [hx] at h ⊢; linarith
      rcases mul_eq_zero.mp h' with h'' | h''
      · linarith
      · exact absurd (by linarith) hz
    have hd : dz - cz ≠ 0 := sub_ne_zero.mpr (Ne.symm hz)
    refine ⟨(pz - cz) / (dz - cz), ?_, ?_⟩
    · rw [hpx, ← hx]; ring
    · field_simp
      ring
  · have hd : dx - cx ≠ 0 := sub_ne_zero.mpr (Ne.symm hx)
    refine ⟨(px - cx) / (dx - cx), ?_, ?_⟩
    · field_simp
      ring
    · field_simp
      linear_combination h

/-- Affine parameters along a segment with distinct endpoints are unique. -/
theorem param_unique (ax az bx bz t u : ℚ) (hne : ax ≠ bx ∨ az ≠ bz)
    (h1 : (1 - t) * ax + t * bx = (1 - u) * ax + u * bx)
    (h2 : (1 - t) * az + t * bz = (1 - u) * az + u * bz) : t = u := by
  have hx : (t - u) * (bx - ax) = 0 := by linarith [h1]
  have hz : (t - u) * (bz - az) = 0 := by linarith [h2]
  rcases hne with h | h
  · rcases mul_eq_zero.mp hx with h' | h'
    · linarith
    · exact absurd (by linarith : ax = bx) h
  · rcases mul_eq_zero.mp hz with h' | h'
    · linarith
    · exact absurd (by linarith : az = bz) h

/-- An affine parameter is in the unit interval when the combination lies
in the coordinate interval. -/
theorem unit_param_of_interval (A B C u : ℚ) (hAB : A ≠ B)
    (hC : C - A = u * (B - A))
    (hint : (A ≤ C ∧ C ≤ B) ∨ (C ≤ A ∧ B ≤ C)) : 0 ≤ u ∧ u ≤ 1 := by
  rcases lt_or_gt_of_ne hAB with hlt | hgt
  · rcases hint with ⟨h1, h2⟩ | ⟨h1, h2⟩
    · constructor
      · by_contra hu
        push_neg at hu
        nlinarith
      · by_contra hu
        push_neg at hu
        nlinarith
    · exact absurd (lt_of_lt_of_le hlt h2) (not_lt.mpr h1)
  · rcases hint with ⟨h1, h2⟩ | ⟨h1, h2⟩
    · exact absurd (lt_of_le_of_lt h1 (lt_of_le_of_lt h2 hgt)) (lt_irrefl A)
    · constructor
      · by_contra hu
        push_neg at hu
        nlinarith
      · by_contra hu
        push_neg at hu
        nlinarith

/-- A unit-interval affine combination lies in the coordinate interval. -/
theorem interval_of_unit_param (A B C t : ℚ) (h : C = (1 - t) * A + t * B)
    (ht0 : 0 ≤ t) (ht1 : t ≤ 1) :
    (A ≤ C ∧ C ≤ B) ∨ (C ≤ A ∧ B ≤ C) := by
  rcases le_total A B with hab | hab
  · left
    constructor <;> nlinarith
  · right
    constructor <;> nlinarith

theorem qx_le_iff (a b : IVec4) : qx a ≤ qx b ↔ a.x ≤ b.x := by
  rw [qx, qx]; exact Int.cast_le

theorem qz_le_iff (a b : IVec4) : qz a ≤ qz b ↔ a.z ≤ b.z := by
  rw [qz, qz]; exact Int.cast_le

theorem qx_eq_iff (a b : IVec4) : qx a = qx b ↔ a.x = b.x := by
  rw [qx, qx]; exact Int.cast_inj

theorem qz_eq_iff (a b : IVec4) : qz a = qz b ↔ a.z = b.z := by
  rw [qz, qz]; exact Int.cast_inj

/-- A vanishing unit-interval convex combination of two nonzero values
forces opposite strict signs. -/
theorem opposite_of_convex_zero (F G t : ℚ) (ht0 : 0 ≤ t) (ht1 : t ≤ 1)
    (h : (1 - t) * F + t * G = 0) (hF : F ≠ 0) (hG : G ≠ 0) :
    (F < 0 ∧ 0 < G) ∨ (0 < F ∧ G < 0) := by
  rcases lt_or_gt_of_ne hF with hF' | hF' <;> rcases lt_or_gt_of_ne hG with hG' | hG'
  · exfalso
    have h1 : (1 - t) * F ≤ 0 :=
      mul_nonpos_of_nonneg_of_nonpos (by linarith) hF'.le
    have h2 : t * G ≤ 0 := mul_nonpos_of_nonneg_of_nonpos ht0 hG'.le
    have h3 : (1 - t) * F = 0 := by linarith
    have h4 : t * G = 0 := by linarith
    rcases mul_eq_zero.mp h3 with h5 | h5
    · rcases mul_eq_zero.mp h4 with h6 | h6
      · linarith
      · exact hG h6
    · exact hF h5
  · exact Or.inl ⟨hF', hG'⟩
  · exact Or.inr ⟨hF', hG'⟩
  · exfalso
    have h1 : 0 ≤ (1 - t) * F := mul_nonneg (by linarith) hF'.le
    have h2 : 0 ≤ t * G := mul_nonneg ht0 hG'.le
    have h3 : (1 - t) * F = 0 := by linarith
    have h4 : t * G = 0 := by linarith
    rcases mul_eq_zero.mp h3 with h5 | h5
    · rcases mul_eq_zero.mp h4 with h6 | h6
      · linarith
      · exact hG h6
    · exact hF h5

/-- A convex combination of two opposite-signed values vanishing forces the
parameter into the unit interval. -/
theorem unit_of_flip (F G s : ℚ) (h : (1 - s) * F + s * G = 0)
    (hop : (F < 0 ∧ 0 < G) ∨ (0 < F ∧ G < 0)) : 0 ≤ s ∧ s ≤ 1 := by
  rcases hop with ⟨hF, hG⟩ | ⟨hF, hG⟩
  · constructor
    · by_contra hs
      push_neg at hs
      have h1 : 0 < (-s) * G := mul_pos (by linarith) hG
      have h2 : (-s) * F < 0 := mul_neg_of_pos_of_neg (by linarith) hF
      nlinarith
    · by_contra hs
      push_neg at hs
      have h1 : 0 < (1 - s) * F := mul_pos_of_neg_of_neg (by linarith) hF
      have h2 : 0 < s * G := mul_pos (by linarith) hG
      linarith
  · constructor
    · by_contra hs
      push_neg at hs
      have h1 : 0 < (-s) * F := mul_pos (by linarith) hF
      have h2 : 0 < s * G := mul_pos_of_neg_of_neg hs hG
      nlinarith
    · by_contra hs
      push_neg at hs
      have h1 : (1 - s) * F < 0 := mul_neg_of_neg_of_pos (by linarith) hF
      have h2 : s * G < 0 := mul_neg_of_pos_of_neg (by linarith) hG
      linarith

/-- There is a unit-interval parameter where an affine function with
opposite-signed endpoint values vanishes. -/
theorem flip_param_exists (F G : ℚ)
    (hop : (F < 0 ∧ 0 < G) ∨ (0 < F ∧ G < 0)) :
    ∃ t : ℚ, 0 ≤ t ∧ t ≤ 1 ∧ (1 - t) * F + t * G = 0 := by
  have hFG : F - G ≠ 0 := by
    rcases hop with ⟨h1, h2⟩ | ⟨h1, h2⟩ <;> intro hc <;> linarith
  refine ⟨F / (F - G), ?_, ?_, ?_⟩
  · rcases hop with ⟨h1, h2⟩ | ⟨h1, h2⟩
    · exact div_nonneg_iff.mpr (Or.inr ⟨h1.le, by linarith⟩)
    · exact div_nonneg_iff.mpr (Or.inl ⟨h1.le, by linarith⟩)
  · rcases hop with ⟨h1, h2⟩ | ⟨h1, h2⟩
    · rw [div_le_one_iff]
      right; right
      constructor <;> linarith
    · rw [div_le_one_iff]
      left
      constructor <;> linarith
  · field_simp
    ring

/-- `between` unfolded into a proposition. -/
theorem between_eq_true (a b c : IVec4) :
    between a b c = true ↔
      area_sqr a b c = 0 ∧
        ((a.x ≠ b.x ∧ ((a.x ≤ c.x ∧ c.x ≤ b.x) ∨ (c.x ≤ a.x ∧ b.x ≤ c.x))) ∨
          (a.x = b.x ∧ ((a.z ≤ c.z ∧ c.z ≤ b.z) ∨ (c.z ≤ a.z ∧ b.z ≤ c.z)))) := by
  rw [between]
  by_cases hcol : area_sqr a b c = 0
  · have hc : collinear a b c = true := by rw [collinear]; exact decide_eq_true hcol
    rw [hc]
    rw [if_neg (by simp : ¬(!true) = true)]
    by_cases hx : a.x = b.x
    · rw [if_neg (not_not_intro hx)]
      simp only [Bool.or_eq_true, Bool.and_eq_true, decide_eq_true_eq]
      constructor
      · intro h
        exact ⟨hcol, Or.inr ⟨hx, by tauto⟩⟩
      · rintro ⟨-, ⟨hne, -⟩ | ⟨-, h⟩⟩
        · exact absurd hx hne
        · tauto
    · rw [if_pos hx]
      simp only [Bool.or_eq_true, Bool.and_eq_true, decide_eq_true_eq]
      constructor
      · intro h
        exact ⟨hcol, Or.inl ⟨hx, by tauto⟩⟩
      · rintro ⟨-, ⟨-, h⟩ | ⟨heq, -⟩⟩
        · tauto
        · exact absurd heq hx
  · have hc : collinear a b c = false := by rw [collinear]; exact decide_eq_false hcol
    rw [hc]
    rw [if_pos (by simp : (!false) = true)]
    simp [hcol]

/-- For a nondegenerate segment `ab`, the `between` test holds exactly when
`c` lies on the closed segment `ab` of the rational XZ-plane. -/
theorem between_iff_onSegment (a b c : IVec4) (hab : ¬ XZEq a b) :
    between a b c = true ↔ OnSegment a b (qx c, qz c) := by
  rw [between_eq_true]
  constructor
  · rintro ⟨hcol, hint⟩
    have hc : crossQ (qx a) (qz a) (qx b) (qz b) (qx c) (qz c) = 0 := by
      have h1 := crossI_eq_area a b c
      rw [crossI] at h1
      rw [h1, hcol]
      simp
    obtain ⟨u, hux, huz⟩ := param_of_crossQ_zero _ _ _ _ _ _ hc (XZ_ne hab)
    have hseg : (qx c, qz c) = segPoint a b u := by
      rw [segPoint, Prod.mk.injEq]
      exact ⟨hux, huz⟩
    rcases hint with ⟨hxne, hint⟩ | ⟨hxeq, hint⟩
    · have hABne : qx a ≠ qx b := fun hcontra => hxne ((qx_eq_iff a b).mp hcontra)
      have hC : qx c - qx a = u * (qx b - qx a) := by linear_combination hux
      have hint2 : (qx a ≤ qx c ∧ qx c ≤ qx b) ∨ (qx c ≤ qx a ∧ qx b ≤ qx c) := by
        rcases hint with ⟨h1, h2⟩ | ⟨h1, h2⟩
        · exact Or.inl ⟨(qx_le_iff a c).mpr h1, (qx_le_iff c b).mpr h2⟩
        · exact Or.inr ⟨(qx_le_iff c a).mpr h1, (qx_le_iff b c).mpr h2⟩
      obtain ⟨h0, h1⟩ := unit_param_of_interval _ _ _ u hABne hC hint2
      exact ⟨u, h0, h1, hseg⟩
    · have hzne : a.z ≠ b.z := fun hz => hab ⟨hxeq, hz⟩
      have hABne : qz a ≠ qz b := fun hcontra => hzne ((qz_eq_iff a b).mp hcontra)
      have hC : qz c - qz a = u * (qz b - qz a) := by linear_combination huz
      have hint2 : (qz a ≤ qz c ∧ qz c ≤ qz b) ∨ (qz c ≤ qz a ∧ qz b ≤ qz c) := by
        rcases hint with ⟨h1, h2⟩ | ⟨h1, h2⟩
        · exact Or.inl ⟨(qz_le_iff a c).mpr h1, (qz_le_iff c b).mpr h2⟩
        · exact Or.inr ⟨(qz_le_iff c a).mpr h1, (qz_le_iff b c).mpr h2⟩
      obtain ⟨h0, h1⟩ := unit_param_of_interval _ _ _ u hABne hC hint2
      exact ⟨u, h0, h1, hseg⟩
  · rintro ⟨t, ht0, ht1, hp⟩
    have hpx : qx c = (1 - t) * qx a + t * qx b := congrArg Prod.fst hp
    have hpz : qz c = (1 - t) * qz a + t * qz b := congrArg Prod.snd hp
    constructor
    · have hzero : crossQ (qx a) (qz a) (qx b) (qz b) (qx c) (qz c) = 0 := by
        rw [hpx, hpz, crossQ_affine, crossQ_self_left, crossQ_self_right]
        ring
      have h1 := crossI_eq_area a b c
      rw [crossI, hzero] at h1
      exact_mod_cast h1.symm
    · by_cases hx : a.x = b.x
      · refine Or.inr ⟨hx, ?_⟩
        rcases interval_of_unit_param (qz a) (qz b) (qz c) t hpz ht0 ht1 with
          ⟨h1, h2⟩ | ⟨h1, h2⟩
        · exact Or.inl ⟨(qz_le_iff a c).mp h1, (qz_le_iff c b).mp h2⟩
        · exact Or.inr ⟨(qz_le_iff c a).mp h1, (qz_le_iff b c).mp h2⟩
      · refine Or.inl ⟨hx, ?_⟩
        rcases interval_of_unit_param (qx a) (qx b) (qx c) t hpx ht0 ht1 with
          ⟨h1, h2⟩ | ⟨h1, h2⟩
        · exact Or.inl ⟨(qx_le_iff a c).mp h1, (qx_le_iff c b).mp h2⟩
        · exact Or.inr ⟨(qx_le_iff c a).mp h1, (qx_le_iff b c).mp h2⟩

theorem xor_lt_of (A B : ℤ) (hA : A ≠ 0) (hB : B ≠ 0)
    (h : (decide (A < 0) ^^ decide (B < 0)) = true) :
    (A < 0 ∧ 0 < B) ∨ (0 < A ∧ B < 0) := by
  cases hA' : decide (A < 0) <;> cases hB' : decide (B < 0) <;> rw [hA', hB'] at h
  · simp at h
  · refine Or.inr ⟨?_, of_decide_eq_true hB'⟩
    have h1 : ¬ A < 0 := of_decide_eq_false hA'
    omega
  · refine Or.inl ⟨of_decide_eq_true hA', ?_⟩
    have h1 : ¬ B < 0 := of_decide_eq_false hB'
    omega
  · simp at h

theorem xor_lt_mk (A B : ℤ)
    (h : (A < 0 ∧ 0 < B) ∨ (0 < A ∧ B < 0)) :
    (decide (A < 0) ^^ decide (B < 0)) = true := by
  rcases h with ⟨h1, h2⟩ | ⟨h1, h2⟩
  · rw [decide_eq_true h1, decide_eq_false (by omega : ¬ B < 0)]
    rfl
  · rw [decide_eq_false (by omega : ¬ A < 0), decide_eq_true h2]
    rfl

/-- `intersect_prop` unfolded into a proposition: all four orientation
values are nonzero, and each segment's endpoints lie strictly on opposite
sides of the other segment's line. -/
theorem intersect_prop_eq_true (a b c d : IVec4) :
    intersect_prop a b c d = true ↔
      area_sqr a b c ≠ 0 ∧ area_sqr a b d ≠ 0 ∧ area_sqr c d a ≠ 0 ∧
        area_sqr c d b ≠ 0 ∧
        ((area_sqr a b c < 0 ∧ 0 < area_sqr a b d) ∨
          (0 < area_sqr a b c ∧ area_sqr a b d < 0)) ∧
        ((area_sqr c d a < 0 ∧ 0 < area_sqr c d b) ∨
          (0 < area_sqr c d a ∧ area_sqr c d b < 0)) := by
  rw [intersect_prop]
  by_cases hguard : (collinear a b c || collinear a b d || collinear c d a ||
      collinear c d b) = true
  · rw [if_pos hguard]
    simp only [collinear, Bool.or_eq_true, decide_eq_true_eq] at hguard
    constructor
    · intro hft
      exact absurd hft (by simp)
    · rintro ⟨h1, h2, h3, h4, -, -⟩
      exfalso
      rcases hguard with ((hg | hg) | hg) | hg
      · exact h1 hg
      · exact h2 hg
      · exact h3 hg
      · exact h4 hg
  · rw [if_neg hguard]
    simp only [collinear, Bool.or_eq_true, decide_eq_true_eq] at hguard
    push_neg at hguard
    obtain ⟨⟨⟨g1, g2⟩, g3⟩, g4⟩ := hguard
    rw [left, left, left, left, Bool.and_eq_true]
    constructor
    · rintro ⟨hx1, hx2⟩
      exact ⟨g1, g2, g3, g4, xor_lt_of _ _ g1 g2 hx1, xor_lt_of _ _ g3 g4 hx2⟩
    · rintro ⟨-, -, -, -, hF, hG⟩
      exact ⟨xor_lt_mk _ _ hF, xor_lt_mk _ _ hG⟩

theorem crossI_neg_iff (e f p : IVec4) : crossI e f p < 0 ↔ area_sqr e f p < 0 := by
  rw [crossI_eq_area]
  exact_mod_cast Iff.rfl

theorem crossI_pos_iff (e f p : IVec4) : 0 < crossI e f p ↔ 0 < area_sqr e f p := by
  rw [crossI_eq_area]
  exact_mod_cast Iff.rfl

theorem crossI_eq_zero_iff (e f p : IVec4) : crossI e f p = 0 ↔ area_sqr e f p = 0 := by
  rw [crossI_eq_area]
  exact_mod_cast Iff.rfl

theorem segPoint_zero (a b : IVec4) : segPoint a b 0 = (qx a, qz a) := by
  rw [segPoint, Prod.mk.injEq, qx, qz]
  constructor <;> ring

theorem segPoint_one (a b : IVec4) : segPoint a b 1 = (qx b, qz b) := by
  rw [segPoint, Prod.mk.injEq, qx, qz]
  constructor <;> ring

/-- A proper crossing yields a shared point of the two closed segments. -/
theorem intersect_prop_shared (a b c d : IVec4) (hcd : ¬ XZEq c d)
    (h : intersect_prop a b c d = true) : SegmentsIntersect a b c d := by
  rw [intersect_prop_eq_true] at h
  obtain ⟨h1, h2, h3, h4, hF, hG⟩ := h
  have hGop : (crossI c d a < 0 ∧ 0 < crossI c d b) ∨
      (0 < crossI c d a ∧ crossI c d b < 0) := by
    rcases hG with ⟨ha', hb'⟩ | ⟨ha', hb'⟩
    · exact Or.inl ⟨(crossI_neg_iff c d a).mpr ha', (crossI_pos_iff c d b).mpr hb'⟩
    · exact Or.inr ⟨(crossI_pos_iff c d a).mpr ha', (crossI_neg_iff c d b).mpr hb'⟩
  have hFop : (crossI a b c < 0 ∧ 0 < crossI a b d) ∨
      (0 < crossI a b c ∧ crossI a b d < 0) := by
    rcases hF with ⟨hc', hd'⟩ | ⟨hc', hd'⟩
    · exact Or.inl ⟨(crossI_neg_iff a b c).mpr hc', (crossI_pos_iff a b d).mpr hd'⟩
    · exact Or.inr ⟨(crossI_pos_iff a b c).mpr hc', (crossI_neg_iff a b d).mpr hd'⟩
  obtain ⟨t, ht0, ht1, hteq⟩ := flip_param_exists _ _ hGop
  have hp0 : crossQ (qx c) (qz c) (qx d) (qz d) (segPoint a b t).1 (segPoint a b t).2
      = 0 := by
    rw [crossI_segPoint]
    exact hteq
  obtain ⟨s, hsx, hsz⟩ := param_of_crossQ_zero _ _ _ _ _ _ hp0 (XZ_ne hcd)
  have hpcd : segPoint a b t = segPoint c d s := by
    refine Prod.ext_iff.mpr ⟨?_, ?_⟩
    · exact hsx
    · exact hsz
  have hab0 : crossQ (qx a) (qz a) (qx b) (qz b) (segPoint a b t).1 (segPoint a b t).2
      = 0 := crossI_segPoint_self a b t
  rw [hpcd, crossI_segPoint] at hab0
  obtain ⟨hs0, hs1⟩ := unit_of_flip _ _ s hab0 hFop
  exact ⟨segPoint a b t, ⟨t, ht0, ht1, rfl⟩, ⟨s, hs0, hs1, hpcd⟩⟩

/-- When both `c` and `d` are collinear with the nondegenerate segment
`ab` and the two segments share a point, one of the three endpoint-on-
segment configurations must occur. -/
theorem collinear_pair_case (a b c d : IVec4) (hab : ¬ XZEq a b)
    (hc0 : area_sqr a b c = 0) (hd0 : area_sqr a b d = 0)
    (p : ℚ × ℚ) (t s : ℚ)
    (ht0 : 0 ≤ t) (ht1 : t ≤ 1) (hpt : p = segPoint a b t)
    (hs0 : 0 ≤ s) (hs1 : s ≤ 1) (hps : p = segPoint c d s) :
    OnSegment a b (qx c, qz c) ∨ OnSegment a b (qx d, qz d) ∨
      OnSegment c d (qx a, qz a) := by
  have hcQ : crossQ (qx a) (qz a) (qx b) (qz b) (qx c) (qz c) = 0 := by
    rw [show crossQ (qx a) (qz a) (qx b) (qz b) (qx c) (qz c) = crossI a b c from rfl,
      crossI_eq_zero_iff]
    exact hc0
  have hdQ : crossQ (qx a) (qz a) (qx b) (qz b) (qx d) (qz d) = 0 := by
    rw [show crossQ (qx a) (qz a) (qx b) (qz b) (qx d) (qz d) = crossI a b d from rfl,
      crossI_eq_zero_iff]
    exact hd0
  obtain ⟨u, hux, huz⟩ := param_of_crossQ_zero _ _ _ _ _ _ hcQ (XZ_ne hab)
  obtain ⟨v, hvx, hvz⟩ := param_of_crossQ_zero _ _ _ _ _ _ hdQ (XZ_ne hab)
  have hpw1 : p.1 = (1 - ((1 - s) * u + s * v)) * qx a + ((1 - s) * u + s * v) * qx b := by
    rw [hps]
    show (1 - s) * qx c + s * qx d = _
    rw [hux, hvx]
    ring
  have hpw2 : p.2 = (1 - ((1 - s) * u + s * v)) * qz a + ((1 - s) * u + s * v) * qz b := by
    rw [hps]
    show (1 - s) * qz c + s * qz d = _
    rw [huz, hvz]
    ring
  have hp1 : p.1 = (1 - t) * qx a + t * qx b := by rw [hpt]; rfl
  have hp2 : p.2 = (1 - t) * qz a + t * qz b := by rw [hpt]; rfl
  have htw : t = (1 - s) * u + s * v :=
    param_unique _ _ _ _ t ((1 - s) * u + s * v) (XZ_ne hab)
      (by rw [← hp1, hpw1]) (by rw [← hp2, hpw2])
  by_cases hu : 0 ≤ u ∧ u ≤ 1
  · refine Or.inl ⟨u, hu.1, hu.2, ?_⟩
    rw [segPoint, Prod.mk.injEq]
    exact ⟨hux, huz⟩
  by_cases hv : 0 ≤ v ∧ v ≤ 1
  · refine Or.inr (Or.inl ⟨v, hv.1, hv.2, ?_⟩)
    rw [segPoint, Prod.mk.injEq]
    exact ⟨hvx, hvz⟩
  rw [Decidable.not_and_iff_or_not, not_le, not_le] at hu hv
  have hstraddle : (u < 0 ∧ 1 < v) ∨ (1 < u ∧ v < 0) := by
    rcases hu with hu' | hu' <;> rcases hv with hv' | hv'
    · exfalso
      rcases le_total u v with huv | huv
      · have h1 : (1 - s) * u ≤ (1 - s) * v :=
          mul_le_mul_of_nonneg_left huv (by linarith)
        nlinarith
      · have h1 : s * v ≤ s * u := mul_le_mul_of_nonneg_left huv hs0
        nlinarith
    · exact Or.inl ⟨hu', hv'⟩
    · exact Or.inr ⟨hu', hv'⟩
    · exfalso
      rcases le_total u v with huv | huv
      · have h1 : s * u ≤ s * v := mul_le_mul_of_nonneg_left huv hs0
        nlinarith
      · have h1 : (1 - s) * v ≤ (1 - s) * u :=
          mul_le_mul_of_nonneg_left huv (by linarith)
        nlinarith
  have huv_ne : u - v ≠ 0 := by
    rcases hstraddle with ⟨h1', h2'⟩ | ⟨h1', h2'⟩ <;> intro hcon <;> linarith
  have hκ : (1 - u / (u - v)) * u + (u / (u - v)) * v = 0 := by
    field_simp
    ring
  have hσ0 : 0 ≤ u / (u - v) := by
    rcases hstraddle with ⟨h1', h2'⟩ | ⟨h1', h2'⟩
    · exact div_nonneg_iff.mpr (Or.inr ⟨h1'.le, by linarith⟩)
    · exact div_nonneg_iff.mpr (Or.inl ⟨by linarith, by linarith⟩)
  have hσ1 : u / (u - v) ≤ 1 := by
    rcases hstraddle with ⟨h1', h2'⟩ | ⟨h1', h2'⟩
    · rw [div_le_one_iff]
      right; right
      constructor <;> linarith
    · rw [div_le_one_iff]
      left
      constructor <;> linarith
  refine Or.inr (Or.inr ⟨u / (u - v), hσ0, hσ1, ?_⟩)
  rw [segPoint, Prod.mk.injEq]
  constructor
  · show qx a = (1 - u / (u - v)) * qx c + u / (u - v) * qx d
    rw [hux, hvx]
    have hexp : (1 - u / (u - v)) * ((1 - u) * qx a + u * qx b) +
        u / (u - v) * ((1 - v) * qx a + v * qx b)
        = (1 - ((1 - u / (u - v)) * u + u / (u - v) * v)) * qx a +
          ((1 - u / (u - v)) * u + u / (u - v) * v) * qx b := by
      ring
    rw [hexp, hκ]
    ring
  · show qz a = (1 - u / (u - v)) * qz c + u / (u - v) * qz d
    rw [huz, hvz]
    have hexp : (1 - u / (u - v)) * ((1 - u) * qz a + u * qz b) +
        u / (u - v) * ((1 - v) * qz a + v * qz b)
        = (1 - ((1 - u / (u - v)) * u + u / (u - v) * v)) * qz a +
          ((1 - u / (u - v)) * u + u / (u - v) * v) * qz b := by
      ring
    rw [hexp, hκ]
    ring

/-- A shared point of two nondegenerate closed segments makes `intersect`
report `true`. -/
theorem shared_implies_intersect (a b c d : IVec4) (hab : ¬ XZEq a b)
    (hcd : ¬ XZEq c d) (h : SegmentsIntersect a b c d) :
    intersect a b c d = true := by
  by_cases hbc : between a b c = true
  · rw [intersect, hbc]
    simp
  by_cases hbd : between a b d = true
  · rw [intersect, hbd]
    simp
  by_cases hca : between c d a = true
  · rw [intersect, hca]
    simp
  by_cases hcb : between c d b = true
  · rw [intersect, hcb]
    simp
  have nbc : ¬ OnSegment a b (qx c, qz c) := fun hcon =>
    hbc ((between_iff_onSegment a b c hab).mpr hcon)
  have nbd : ¬ OnSegment a b (qx d, qz d) := fun hcon =>
    hbd ((between_iff_onSegment a b d hab).mpr hcon)
  have nca : ¬ OnSegment c d (qx a, qz a) := fun hcon =>
    hca ((between_iff_onSegment c d a hcd).mpr hcon)
  have ncb : ¬ OnSegment c d (qx b, qz b) := fun hcon =>
    hcb ((between_iff_onSegment c d b hcd).mpr hcon)
  obtain ⟨p, ⟨t, ht0, ht1, hpt⟩, ⟨s, hs0, hs1, hps⟩⟩ := h
  have hab0 : crossQ (qx a) (qz a) (qx b) (qz b) p.1 p.2 = 0 := by
    rw [hpt]
    exact crossI_segPoint_self a b t
  have hcd0 : crossQ (qx c) (qz c) (qx d) (qz d) p.1 p.2 = 0 := by
    rw [hps]
    exact crossI_segPoint_self c d s
  have habF : (1 - s) * crossI a b c + s * crossI a b d = 0 := by
    rw [← crossI_segPoint a b c d s, ← hps]
    exact hab0
  have hcdG : (1 - t) * crossI c d a + t * crossI c d b = 0 := by
    rw [← crossI_segPoint c d a b t, ← hpt]
    exact hcd0
  have h1 : area_sqr a b c ≠ 0 := by
    intro h0
    by_cases hd0 : area_sqr a b d = 0
    · rcases collinear_pair_case a b c d hab h0 hd0 p t s ht0 ht1 hpt hs0 hs1 hps with
        hc | hc | hc
      · exact nbc hc
      · exact nbd hc
      · exact nca hc
    · have hc0 : crossI a b c = 0 := (crossI_eq_zero_iff a b c).mpr h0
      have hdne : crossI a b d ≠ 0 := fun hcon =>
        hd0 ((crossI_eq_zero_iff a b d).mp hcon)
      have hs' : s = 0 := by
        rw [hc0, mul_zero, zero_add] at habF
        rcases mul_eq_zero.mp habF with h' | h'
        · exact h'
        · exact absurd h' hdne
      apply nbc
      refine ⟨t, ht0, ht1, ?_⟩
      rw [← hpt, hps, hs', segPoint_zero]
  have h2 : area_sqr a b d ≠ 0 := by
    intro h0
    have hcne : crossI a b c ≠ 0 := fun hcon => h1 ((crossI_eq_zero_iff a b c).mp hcon)
    have hd0 : crossI a b d = 0 := (crossI_eq_zero_iff a b d).mpr h0
    have hs' : s = 1 := by
      rw [hd0, mul_zero, add_zero] at habF
      rcases mul_eq_zero.mp habF with h' | h'
      · linarith [h']
      · exact absurd h' hcne
    apply nbd
    refine ⟨t, ht0, ht1, ?_⟩
    rw [← hpt, hps, hs', segPoint_one]
  have h3 : area_sqr c d a ≠ 0 := by
    intro h0
    by_cases hb0 : area_sqr c d b = 0
    · rcases collinear_pair_case c d a b hcd h0 hb0 p s t hs0 hs1 hps ht0 ht1 hpt with
        hc | hc | hc
      · exact nca hc
      · exact ncb hc
      · exact nbc hc
    · have ha0 : crossI c d a = 0 := (crossI_eq_zero_iff c d a).mpr h0
      have hbne : crossI c d b ≠ 0 := fun hcon =>
        hb0 ((crossI_eq_zero_iff c d b).mp hcon)
      have ht' : t = 0 := by
        rw [ha0, mul_zero, zero_add] at hcdG
        rcases mul_eq_zero.mp hcdG with h' | h'
        · exact h'
        · exact absurd h' hbne
      apply nca
      refine ⟨s, hs0, hs1, ?_⟩
      rw [← hps, hpt, ht', segPoint_zero]
  have h4 : area_sqr c d b ≠ 0 := by
    intro h0
    have hane : crossI c d a ≠ 0 := fun hcon => h3 ((crossI_eq_zero_iff c d a).mp hcon)
    have hb0 : crossI c d b = 0 := (crossI_eq_zero_iff c d b).mpr h0
    have ht' : t = 1 := by
      rw [hb0, mul_zero, add_zero] at hcdG
      rcases mul_eq_zero.mp hcdG with h' | h'
      · linarith [h']
      · exact absurd h' hane
    apply ncb
    refine ⟨s, hs0, hs1, ?_⟩
    rw [← hps, hpt, ht', segPoint_one]
  have hFop := opposite_of_convex_zero (crossI a b c) (crossI a b d) s hs0 hs1 habF
    (fun hcon => h1 ((crossI_eq_zero_iff a b c).mp hcon))
    (fun hcon => h2 ((crossI_eq_zero_iff a b d).mp hcon))
  have hGop := opposite_of_convex_zero (crossI c d a) (crossI c d b) t ht0 ht1 hcdG
    (fun hcon => h3 ((crossI_eq_zero_iff c d a).mp hcon))
    (fun hcon => h4 ((crossI_eq_zero_iff c d b).mp hcon))
  have hF : (area_sqr a b c < 0 ∧ 0 < area_sqr a b d) ∨
      (0 < area_sqr a b c ∧ area_sqr a b d < 0) := by
    rcases hFop with ⟨l, r⟩ | ⟨l, r⟩
    · exact Or.inl ⟨(crossI_neg_iff a b c).mp l, (crossI_pos_iff a b d).mp r⟩
    · exact Or.inr ⟨(crossI_pos_iff a b c).mp l, (crossI_neg_iff a b d).mp r⟩
  have hG : (area_sqr c d a < 0 ∧ 0 < area_sqr c d b) ∨
      (0 < area_sqr c d a ∧ area_sqr c d b < 0) := by
    rcases hGop with ⟨l, r⟩ | ⟨l, r⟩
    · exact Or.inl ⟨(crossI_neg_iff c d a).mp l, (crossI_pos_iff c d b).mp r⟩
    · exact Or.inr ⟨(crossI_pos_iff c d a).mp l, (crossI_neg_iff c d b).mp r⟩
  have hprop : intersect_prop a b c d = true :=
    (intersect_prop_eq_true a b c d).mpr ⟨h1, h2, h3, h4, hF, hG⟩
  rw [intersect, hprop]
  simp

/-- `intersect` reporting `true` on nondegenerate segments yields a shared
point. -/
theorem intersect_implies_shared (a b c d : IVec4) (hab : ¬ XZEq a b)
    (hcd : ¬ XZEq c d) (h : intersect a b c d = true) :
    SegmentsIntersect a b c d := by
  rw [intersect] at h
  simp only [Bool.or_eq_true] at h
  rcases h with ((((hp | hp) | hp) | hp) | hp)
  · exact intersect_prop_shared a b c d hcd hp
  · exact ⟨(qx c, qz c), (between_iff_onSegment a b c hab).mp hp,
      ⟨0, le_refl 0, zero_le_one, (segPoint_zero c d).symm⟩⟩
  · exact ⟨(qx d, qz d), (between_iff_onSegment a b d hab).mp hp,
      ⟨1, zero_le_one, le_refl 1, (segPoint_one c d).symm⟩⟩
  · exact ⟨(qx a, qz a), ⟨0, le_refl 0, zero_le_one, (segPoint_zero a b).symm⟩,
      (between_iff_onSegment c d a hcd).mp hp⟩
  · exact ⟨(qx b, qz b), ⟨1, zero_le_one, le_refl 1, (segPoint_one a b).symm⟩,
      (between_iff_onSegment c d b hcd).mp hp⟩

/-- Claim C8 (amended): over integer XZ-coordinates, `area_sqr` is exactly
the integer cross product `(b.x - a.x)(c.z - a.z) - (c.x - a.x)(b.z - a.z)`,
`left`/`left_on`/`collinear` are its exact sign comparisons, and — provided
both segments are nondegenerate (`a`, `b` and `c`, `d` distinct on the
XZ-plane) — `intersect a b c d` returns `true` exactly when the closed
segments `ab` and `cd` share at least one point (a proper crossing, an
endpoint on the other segment, or collinear overlap), all in exact integer
arithmetic with no floating point involved. -/
theorem C8_exact_primitives (a b c d : IVec4) (hab : ¬ XZEq a b) (hcd : ¬ XZEq c d) :
    area_sqr a b c = (b.x - a.x) * (c.z - a.z) - (c.x - a.x) * (b.z - a.z) ∧
    (left a b c = true ↔ area_sqr a b c < 0) ∧
    (left_on a b c = true ↔ area_sqr a b c ≤ 0) ∧
    (collinear a b c = true ↔ area_sqr a b c = 0) ∧
    (intersect a b c d = true ↔ SegmentsIntersect a b c d) := by
  refine ⟨rfl, by rw [left]; simp, by rw [left_on]; simp, by rw [collinear]; simp, ?_, ?_⟩
  · exact intersect_implies_shared a b c d hab hcd
  · exact shared_implies_intersect a b c d hab hcd

/-- Start of the first witness segment for `C8_exact_primitives`. -/
def wA : IVec4 := ⟨0, 0, 0, 0⟩

/-- End of the first witness segment. -/
def wB : IVec4 := ⟨2, 0, 0, 0⟩

/-- Start of the second witness segment. -/
def wC : IVec4 := ⟨1, 0, -1, 0⟩

/-- End of the second witness segment. -/
def wD : IVec4 := ⟨1, 0, 1, 0⟩

/-- Witness for `C8_exact_primitives` on the crossing segments from
`(0,0)` to `(2,0)` and from `(1,-1)` to `(1,1)`. -/
theorem C8_exact_primitives_witness :
    (¬ XZEq wA wB ∧ ¬ XZEq wC wD) ∧
    (area_sqr wA wB wC =
        (wB.x - wA.x) * (wC.z - wA.z) - (wC.x - wA.x) * (wB.z - wA.z) ∧
      (left wA wB wC = true ↔ area_sqr wA wB wC < 0) ∧
      (left_on wA wB wC = true ↔ area_sqr wA wB wC ≤ 0) ∧
      (collinear wA wB wC = true ↔ area_sqr wA wB wC = 0) ∧
      (intersect wA wB wC wD = true ↔ SegmentsIntersect wA wB wC wD)) :=
  ⟨⟨by decide, by decide⟩, C8_exact_primitives wA wB wC wD (by decide) (by decide)⟩

end OxidizedNavigation
